import Mathlib

/-!
Verification of the `cauldron` repository: a Postgres access layer
(`cauldron/sql.py`) and a Redis access layer (`vessel/redis_cache.py`).

The development shallowly embeds the pure parts of the code (query
construction, key construction, serialization) as executable Lean
functions, and the stateful/concurrent parts (pool creation under the
event loop, the redis store, the transaction wrapper) as explicit state
passing or step relations.  Python strings are Lean `String`s; Python
`dict`s appearing as ordered mappings are association lists in insertion
order; Python truthiness tests are modelled explicitly at each use site.
-/

/-- Python's `sep.join(parts)`: empty for `[]`, otherwise the parts
interleaved with `sep`. -/
def strJoin (sep : String) : List String → String
  | [] => ""
  | [x] => x
  | x :: y :: xs => x ++ sep ++ strJoin sep (y :: xs)

/-- Number of occurrences of the placeholder `%s` in a character list
(an occurrence is a position `i` with `l[i] = %` and `l[i+1] = s`;
the pattern cannot overlap itself). -/
def countPS : List Char → Nat
  | [] => 0
  | a :: rest =>
    (match rest with
     | b :: _ => if a = '%' ∧ b = 's' then 1 else 0
     | [] => 0) + countPS rest

/-- Whether the character list ends in `%`. -/
def endsPercent (l : List Char) : Bool := l.getLast? = some '%'

/-- Whether the character list starts with `s`. -/
def startsS (l : List Char) : Bool := l.head? = some 's'

/-- One when gluing `xs ++ ys` creates a new `%s` occurrence across the
boundary, else `0`. -/
def psBoundary (xs ys : List Char) : Nat :=
  if endsPercent xs && startsS ys then 1 else 0

/-- Substitute the values `vs`, in order, for the successive `%s`
placeholders of `l` (models the driver binding values positionally). -/
def substPS : List Char → List (List Char) → List Char
  | [], _ => []
  | [a], _ => [a]
  | a :: b :: rest2, vs =>
    match vs with
    | v :: vs2 =>
      if a = '%' ∧ b = 's' then v ++ substPS rest2 vs2
      else a :: substPS (b :: rest2) vs
    | [] => a :: substPS (b :: rest2) []

namespace PostgresStore

/-- The source item `_get_key`-style entry renderer: `_WHERE_AND = '\x7b\x7d \x7b\x7d %s'`
applied to a column and an operator. -/
def whereAndFmt (col op : String) : String := col ++ " " ++ op ++ " %s"

/-- One filter group: a Python dict from column name to an
`(operator, value)` pair, in insertion order. -/
abbrev Group (α : Type) := List (String × String × α)

/-- A FilterExpression: the `where_keys` list of groups. -/
abbrev FilterExpr (α : Type) := List (Group α)

/-- The source item `make_and_query` from `_get_where_clause_with_values`: render one
group as `(col1 op1 %s and col2 op2 %s ...)`. -/
def make_and_query {α : Type} (g : Group α) : String :=
  "(" ++ strJoin " and " (g.map fun e => whereAndFmt e.1 e.2.1) ++ ")"

/-- The values collected by `_get_where_clause_with_values`:
`values.extend` runs group by group, left to right. -/
def whereValues {α : Type} (wk : FilterExpr α) : List α :=
  (wk.map fun g => g.map fun e => e.2.2).flatten

/-- The source item `PostgresStore._get_where_clause_with_values`: the rendered clause
(groups joined by `' or '`) together with the bound values. -/
def _get_where_clause_with_values {α : Type} (wk : FilterExpr α) :
    String × List α :=
  (strJoin " or " (wk.map make_and_query), whereValues wk)

/-- The source item `_select_all_string_with_condition_and_order_by` applied to its five
format arguments. -/
def selectAllCondOrderBy (table whereClause orderBy limit offset : String) :
    String :=
  "select * from " ++ table ++ " where (" ++ whereClause ++ ") order by " ++
    orderBy ++ " limit " ++ limit ++ " offset " ++ offset ++ ";"

/-- The source item `_select_all_string_with_condition` applied to its format arguments. -/
def selectAllCond (table whereClause limit offset : String) : String :=
  "select * from " ++ table ++ " where (" ++ whereClause ++ ") limit " ++
    limit ++ " offset " ++ offset ++ ";"

/-- The source item `_select_all_string_with_order_by` applied to its format arguments. -/
def selectAllOrderBy (table orderBy limit offset : String) : String :=
  "select * from " ++ table ++ " order by " ++ orderBy ++ " limit " ++
    limit ++ " offset " ++ offset ++ ";"

/-- The source item `_select_all_string` applied to its format arguments. -/
def selectAll (table limit offset : String) : String :=
  "select * from " ++ table ++ " limit " ++ limit ++ " offset " ++ offset ++ ";"

/-- The source item `_select_selective_column_with_condition_and_order_by`. -/
def selectColsCondOrderBy (cols table whereClause orderBy limit offset :
    String) : String :=
  "select " ++ cols ++ " from " ++ table ++ " where (" ++ whereClause ++
    ") order by " ++ orderBy ++ " limit " ++ limit ++ " offset " ++ offset ++ ";"

/-- The source item `_select_selective_column_with_condition`. -/
def selectColsCond (cols table whereClause limit offset : String) : String :=
  "select " ++ cols ++ " from " ++ table ++ " where (" ++ whereClause ++
    ") limit " ++ limit ++ " offset " ++ offset ++ ";"

/-- The source item `_select_selective_column_with_order_by`. -/
def selectColsOrderBy (cols table orderBy limit offset : String) : String :=
  "select " ++ cols ++ " from " ++ table ++ " order by " ++ orderBy ++
    " limit " ++ limit ++ " offset " ++ offset ++ ";"

/-- The source item `_select_selective_column`. -/
def selectCols (cols table limit offset : String) : String :=
  "select " ++ cols ++ " from " ++ table ++ " limit " ++ limit ++
    " offset " ++ offset ++ ";"

/-- Python truthiness of an optional list (`if columns:` /
`if where_keys:`): `None` and `[]` are falsy. -/
def truthyList {β : Type} : Option (List β) → Bool
  | none => false
  | some l => !l.isEmpty

/-- Python truthiness of an optional string (`if order_by:`): `None` and
`''` are falsy. -/
def truthyStr : Option String → Bool
  | none => false
  | some s => !(s == "")

/-- The pure query-construction part of `PostgresStore.select`: the pair
`(q, t)` handed to `cur.execute`.  Branches follow the source's
truthiness tests on `columns`, `where_keys` and `order_by`; `limit` and
`offset` are formatted with `str`. -/
def selectQuery {α : Type} (table : String) (order_by : Option String)
    (columns : Option (List String)) (where_keys : Option (FilterExpr α))
    (limit offset : Int) : String × List α :=
  if truthyList columns then
    let columns_string := strJoin ", " (columns.getD [])
    if truthyList where_keys then
      let (where_clause, values) :=
        _get_where_clause_with_values (where_keys.getD [])
      if truthyStr order_by then
        (selectColsCondOrderBy columns_string table where_clause
          (order_by.getD "") (toString limit) (toString offset), values)
      else
        (selectColsCond columns_string table where_clause
          (toString limit) (toString offset), values)
    else
      if truthyStr order_by then
        (selectColsOrderBy columns_string table (order_by.getD "")
          (toString limit) (toString offset), [])
      else
        (selectCols columns_string table (toString limit)
          (toString offset), [])
  else
    if truthyList where_keys then
      let (where_clause, values) :=
        _get_where_clause_with_values (where_keys.getD [])
      if truthyStr order_by then
        (selectAllCondOrderBy table where_clause (order_by.getD "")
          (toString limit) (toString offset), values)
      else
        (selectAllCond table where_clause (toString limit)
          (toString offset), values)
    else
      if truthyStr order_by then
        (selectAllOrderBy table (order_by.getD "") (toString limit)
          (toString offset), [])
      else
        (selectAll table (toString limit) (toString offset), [])

end PostgresStore

namespace PostgresStore

/-- The `transaction` decorator (`cauldron/sql.py`).  The wrapped
operation is modelled as a function from the trace of statements already
executed on the cursor to the extended trace together with either its
return value or the exception it raised.  The wrapper executes `BEGIN`,
runs the operation, then executes `ROLLBACK` (falling off the end of the
wrapper, hence returning `none`) on any exception, or `COMMIT` and the
operation's result on success. -/
def transaction {ε α : Type} (op : List String → List String × Except ε α)
    (t : List String) : List String × Option α :=
  let t1 := t ++ ["BEGIN"]
  match op t1 with
  | (t2, Except.error _) => (t2 ++ ["ROLLBACK"], none)
  | (t2, Except.ok a) => (t2 ++ ["COMMIT"], some a)

/-- Errors surfaced by cursor acquisition. -/
inductive PgError where
  | timeoutError
deriving DecidableEq

/-- Observable effects surrounding cursor acquisition: log lines already
emitted synchronously, and fire-and-forget tasks scheduled with
`asyncio.async` but not yet run. -/
structure DiagState where
  logs : List String
  scheduled : List String
deriving DecidableEq

/-- The source item `PostgresStore.cursor_from_connection_source`.  The outcome of
`asyncio.wait_for(connection_source.cursor(...), timeout=...)` is the
input: `some c` when a cursor was produced within
`_acquire_conn_wait_time` seconds, `none` when the bounded wait expired.
On timeout the source logs one info line, schedules
`log_connection_pool_state()` as a separate task (not awaited), and
re-raises `asyncio.TimeoutError`. -/
def cursor_from_connection_source {Cursor : Type} (acq : Option Cursor)
    (waitTime : Nat) (st : DiagState) : Except PgError Cursor × DiagState :=
  match acq with
  | some c => (Except.ok c, st)
  | none =>
    (Except.error PgError.timeoutError,
      { logs := st.logs ++
          ["Could not acquire connection from pool in " ++
            toString waitTime ++ " seconds"],
        scheduled := st.scheduled ++ ["log_connection_pool_state"] })

end PostgresStore

namespace RedisCache

/-- The source item `RedisCache._get_key`: the composite key `namespace + ':' + key`. -/
def _get_key (nameSpace key : String) : String := nameSpace ++ ":" ++ key

/-- Python truthiness of an optional string argument defaulting to
`None` (`if namespace:`): `None` and `''` are falsy. -/
def truthyNs : Option String → Bool
  | none => false
  | some s => !(s == "")

/-- The redis key that `set_key` operates on: the namespace is prepended
when it `is not None`. -/
def setKeyTarget (key : String) (nameSpace : Option String) : String :=
  match nameSpace with
  | some ns => _get_key ns key
  | none => key

/-- The redis key that `get_key` operates on (same `is not None` test). -/
def getKeyTarget (key : String) (nameSpace : Option String) : String :=
  match nameSpace with
  | some ns => _get_key ns key
  | none => key

/-- The redis key that `increment_value` operates on. -/
def incrementValueTarget (key : String) (nameSpace : Option String) : String :=
  match nameSpace with
  | some ns => _get_key ns key
  | none => key

/-- The redis key that `increment_by_value` operates on. -/
def incrementByValueTarget (key : String) (nameSpace : Option String) :
    String :=
  match nameSpace with
  | some ns => _get_key ns key
  | none => key

/-- The redis key that `delete` operates on. -/
def deleteTarget (key : String) (nameSpace : Option String) : String :=
  match nameSpace with
  | some ns => _get_key ns key
  | none => key

/-- The redis key that `set_key_if_not_exists` operates on: this one
tests the namespace for truthiness (`if namespace:`), not against
`None`. -/
def setKeyIfNotExistsTarget (key : String) (nameSpace : Option String) :
    String :=
  if truthyNs nameSpace then _get_key (nameSpace.getD "") key else key

/-- The redis key that `hmset` operates on: `redis.hmset(namespace,
field, value)` uses the namespace itself as the hash key; the field is a
field inside that hash occupying no composite key. -/
def hmsetTarget (_field : String) (nameSpace : String) : String := nameSpace

/-- The redis key that `hmget` operates on: `redis.hmget(namespace,
*fields)`. -/
def hmgetTarget (_fields : List String) (nameSpace : String) : String :=
  nameSpace

/-- The redis key that `hdel` operates on: `redis.hdel(namespace, key)`. -/
def hdelTarget (_key : String) (nameSpace : String) : String := nameSpace

/-- The redis key that `hgetall` operates on. -/
def hgetallTarget (nameSpace : String) : String := nameSpace

/-- The redis key that `lpush` operates on: `_get_key(namespace, key)`
unconditionally (the namespace is a required positional argument). -/
def lpushTarget (nameSpace key : String) : String := _get_key nameSpace key

/-- The redis key that `llen` operates on. -/
def llenTarget (nameSpace key : String) : String := _get_key nameSpace key

/-- The redis key that `lrange` operates on. -/
def lrangeTarget (nameSpace key : String) : String := _get_key nameSpace key

/-- The string key space of one redis database: an association list from
key to stored string value. -/
abbrev Store := List (String × String)

/-- Redis `SET`: overwrite any existing binding for the key. -/
def storeSet (k v : String) (s : Store) : Store :=
  (k, v) :: s.filter fun p => p.1 ≠ k

/-- The source item `RedisCache.set_key` acting on the store (`expire` is accepted as in
the source but expiry is not modelled: there is no clock). -/
def set_key (key value : String) (nameSpace : Option String) (s : Store)
    (_expire : Nat) : Store :=
  storeSet (setKeyTarget key nameSpace) value s

/-- The source item `RedisCache.get_key` acting on the store. -/
def get_key (key : String) (nameSpace : Option String) (s : Store) :
    Option String :=
  s.lookup (getKeyTarget key nameSpace)

/-- The source item `RedisCache.set_key_if_not_exists` acting on the store: redis
`SET ... NX` writes only when the key is absent, returning whether it
wrote. -/
def set_key_if_not_exists (key value : String) (nameSpace : Option String)
    (s : Store) (_expire : Nat) : Bool × Store :=
  let k := setKeyIfNotExistsTarget key nameSpace
  match s.lookup k with
  | some _ => (false, s)
  | none => (true, storeSet k value s)

/-- Redis glob matching over characters, as used by the `KEYS` command:
`*` matches any (possibly empty) run, `?` matches one character,
anything else matches itself literally. -/
def globMatch (p s : List Char) : Bool :=
  match p, s with
  | [], rest => rest.isEmpty
  | c :: ps, rest =>
    if c = '*' then
      match rest with
      | [] => globMatch ps []
      | _ :: cs => globMatch ps rest || globMatch (c :: ps) cs
    else
      match rest with
      | [] => false
      | d :: cs => (c = d || c = '?') && globMatch ps cs
termination_by (p.length, s.length)

/-- The source item `redis.keys(pattern)`: the keys of the store matching the glob
pattern, in store order. -/
def storeKeys (pattern : String) (s : Store) : List String :=
  (s.map Prod.fst).filter fun k => globMatch pattern.data k.data

/-- The source item `RedisCache._delete_by_pattern`: falsy patterns delete nothing;
otherwise list the matching keys, bulk-delete them when the list is
nonempty, and return how many were listed. -/
def _delete_by_pattern (pattern : String) (s : Store) : Nat × Store :=
  if pattern == "" then (0, s)
  else
    let _keys := storeKeys pattern s
    let s' := if _keys.isEmpty then s
      else s.filter fun p => !(_keys.contains p.1)
    (_keys.length, s')

/-- The source item `RedisCache.clear_namespace`: delete by the pattern
`namespace + '*'`. -/
def clear_namespace (nameSpace : String) (s : Store) : Nat × Store :=
  _delete_by_pattern (nameSpace ++ "*") s

end RedisCache

/-- The double-quote character. -/
def dqC : Char := Char.ofNat 34

/-- The backslash character. -/
def bsC : Char := Char.ofNat 92

/-- The single-quote character. -/
def sqC : Char := Char.ofNat 39

/-- The double-quote character as a string. -/
def dqS : String := String.singleton dqC

/-- The single-quote character as a string. -/
def sqS : String := String.singleton sqC

/-- An opening curly bracket as a string. -/
def lbS : String := String.singleton (Char.ofNat 123)

/-- A closing curly bracket as a string. -/
def rbS : String := String.singleton (Char.ofNat 125)

/-- JSON values as produced and consumed by the Python `json` module.
Numbers are modelled as integers only: the repository's claims never
depend on floating-point values, which have no shallow embedding here. -/
inductive Json where
  | null
  | bool (b : Bool)
  | num (n : Int)
  | str (s : String)
  | arr (xs : List Json)
  | obj (fields : List (String × Json))

/-- String escaping performed by `json.dumps`: backslash-escape the
double quote and the backslash (control characters are not modelled). -/
def jsonEscape (s : String) : String :=
  String.mk ((s.data.map fun c =>
    if c = dqC || c = bsC then [bsC, c] else [c]).flatten)

mutual

/-- The source item `json.dumps` with default separators `', '` and `': '` and
`sort_keys=False`: object fields render in insertion order. -/
def dumps : Json → String
  | Json.null => "null"
  | Json.bool b => if b then "true" else "false"
  | Json.num n => toString n
  | Json.str s => dqS ++ jsonEscape s ++ dqS
  | Json.arr xs => "[" ++ strJoin ", " (dumpsList xs) ++ "]"
  | Json.obj fs => lbS ++ strJoin ", " (dumpsFields fs) ++ rbS

/-- Renderings of the elements of a JSON array. -/
def dumpsList : List Json → List String
  | [] => []
  | x :: xs => dumps x :: dumpsList xs

/-- Renderings of the members of a JSON object. -/
def dumpsFields : List (String × Json) → List String
  | [] => []
  | kv :: fs => (dqS ++ jsonEscape kv.1 ++ dqS ++ ": " ++ dumps kv.2) :: dumpsFields fs

end

/-- Strict code-point order on character lists (the order Python's
`sorted` uses on strings). -/
def charListLt : List Char → List Char → Bool
  | [], [] => false
  | [], _ :: _ => true
  | _ :: _, [] => false
  | a :: as, b :: bs =>
    if a.toNat < b.toNat then true
    else if b.toNat < a.toNat then false
    else charListLt as bs

/-- Strict code-point order on strings. -/
def strLt (a b : String) : Bool := charListLt a.data b.data

/-- Insert a field into a key-sorted field list, keeping it sorted. -/
def insertByKey (kv : String × Json) : List (String × Json) →
    List (String × Json)
  | [] => [kv]
  | f :: rest =>
    if strLt f.1 kv.1 then f :: insertByKey kv rest else kv :: f :: rest

/-- Sort object fields by key (Python's `sorted` on dict keys). -/
def sortByKey : List (String × Json) → List (String × Json)
  | [] => []
  | f :: rest => insertByKey f (sortByKey rest)

mutual

/-- Recursively sort every object's fields by key, as `sort_keys=True`
does at serialization time. -/
def sortKeysJson : Json → Json
  | Json.obj fs => Json.obj (sortByKey (sortKeysFields fs))
  | Json.arr xs => Json.arr (sortKeysList xs)
  | v => v

/-- The source item `sortKeysJson` mapped over array elements. -/
def sortKeysList : List Json → List Json
  | [] => []
  | x :: xs => sortKeysJson x :: sortKeysList xs

/-- The source item `sortKeysJson` mapped over object field values. -/
def sortKeysFields : List (String × Json) → List (String × Json)
  | [] => []
  | (k, v) :: fs => (k, sortKeysJson v) :: sortKeysFields fs

end

/-- The source item `json.dumps(..., sort_keys=True)`. -/
def dumpsSorted (j : Json) : String := dumps (sortKeysJson j)

/-- Drop JSON whitespace. -/
def skipWs : List Char → List Char
  | c :: rest =>
    if c = ' ' || c = Char.ofNat 9 || c = Char.ofNat 10 || c = Char.ofNat 13
    then skipWs rest else c :: rest
  | [] => []

/-- Parse a JSON string body after the opening quote, handling the
`\x5c"` and `\x5c\x5c` escapes `dumps` emits; unknown escapes keep the
escaped character. -/
def parseStrBody : List Char → Option (String × List Char)
  | [] => none
  | c :: rest =>
    if c = dqC then some ("", rest)
    else if c = bsC then
      match rest with
      | [] => none
      | e :: rest2 =>
        (parseStrBody rest2).map fun pr =>
          (String.singleton e ++ pr.1, pr.2)
    else
      (parseStrBody rest).map fun pr => (String.singleton c ++ pr.1, pr.2)

/-- Span of leading decimal digits. -/
def takeDigits : List Char → List Char × List Char
  | [] => ([], [])
  | c :: rest =>
    if c.isDigit then
      let (ds, r) := takeDigits rest
      (c :: ds, r)
    else ([], c :: rest)

/-- Digits to a natural number. -/
def digitsToNat (ds : List Char) : Nat :=
  ds.foldl (fun n c => n * 10 + (c.toNat - 48)) 0

/-- Parse a JSON integer (optional minus sign, then digits). -/
def parseNum : List Char → Option (Json × List Char)
  | l =>
    match l with
    | c :: rest =>
      if c = '-' then
        match takeDigits rest with
        | ([], _) => none
        | (ds, r) => some (Json.num (-(digitsToNat ds : Int)), r)
      else
        match takeDigits l with
        | ([], _) => none
        | (ds, r) => some (Json.num (digitsToNat ds), r)
    | [] => none

/-- Check that the input starts with the given literal and return the
rest. -/
def expectLit : List Char → List Char → Option (List Char)
  | [], l => some l
  | c :: cs, d :: l => if c = d then expectLit cs l else none
  | _ :: _, [] => none

mutual

/-- Fuel-indexed recursive-descent parser for the JSON subset `dumps`
emits; models `json.loads`. -/
def parseVal : Nat → List Char → Option (Json × List Char)
  | 0, _ => none
  | Nat.succ f, l =>
    match skipWs l with
    | [] => none
    | c :: rest =>
      if c = dqC then (parseStrBody rest).map fun pr => (Json.str pr.1, pr.2)
      else if c = '[' then
        match skipWs rest with
        | ']' :: r => some (Json.arr [], r)
        | r2 => (parseElems f r2).map fun pr => (Json.arr pr.1, pr.2)
      else if c = Char.ofNat 123 then
        match skipWs rest with
        | d :: r =>
          if d = Char.ofNat 125 then some (Json.obj [], r)
          else (parseMembers f (d :: r)).map fun pr => (Json.obj pr.1, pr.2)
        | [] => none
      else if c = 't' then
        (expectLit ['r', 'u', 'e'] rest).map fun r => (Json.bool true, r)
      else if c = 'f' then
        (expectLit ['a', 'l', 's', 'e'] rest).map fun r => (Json.bool false, r)
      else if c = 'n' then
        (expectLit ['u', 'l', 'l'] rest).map fun r => (Json.null, r)
      else parseNum (c :: rest)

/-- Parse one or more comma-separated array elements up to `]`. -/
def parseElems : Nat → List Char → Option (List Json × List Char)
  | 0, _ => none
  | Nat.succ f, l =>
    match parseVal f l with
    | none => none
    | some (v, r) =>
      match skipWs r with
      | ',' :: r2 => (parseElems f r2).map fun pr => (v :: pr.1, pr.2)
      | ']' :: r2 => some ([v], r2)
      | _ => none

/-- Parse one or more comma-separated object members up to the closing
bracket. -/
def parseMembers : Nat → List Char →
    Option (List (String × Json) × List Char)
  | 0, _ => none
  | Nat.succ f, l =>
    match skipWs l with
    | c :: rest =>
      if c = dqC then
        match parseStrBody rest with
        | none => none
        | some (k, r) =>
          match skipWs r with
          | ':' :: r2 =>
            match parseVal f r2 with
            | none => none
            | some (v, r3) =>
              match skipWs r3 with
              | ',' :: r4 =>
                (parseMembers f r4).map fun pr => ((k, v) :: pr.1, pr.2)
              | d :: r4 =>
                if d = Char.ofNat 125 then some ([(k, v)], r4) else none
              | [] => none
          | _ => none
      else none
    | [] => none

end

/-- The source item `json.loads`: parse a complete JSON document; `none` models a raised
`JSONDecodeError`. -/
def loads (s : String) : Option Json :=
  match parseVal (2 * s.length + 2) s.data with
  | some (v, r) => if (skipWs r).isEmpty then some v else none
  | none => none

/-- Python runtime values as they reach the caching decorators.  `obj`
stands for a value of any type outside the JSON-serializable ones
(identified by an id, as two distinct objects are distinguishable).
Floats are not modelled (no claim depends on them). -/
inductive PyVal where
  | none
  | bool (b : Bool)
  | int (n : Int)
  | str (s : String)
  | pylist (xs : List PyVal)
  | tuple (xs : List PyVal)
  | dict (fields : List (String × PyVal))
  | obj (id : Nat)

/-- The source item `type(arg) in allowed_types_for_caching` with
`allowed_types_for_caching = [str, int, list, tuple, float, dict, bool]`
(`vessel/redis_cache.py` line 8).  `None` and arbitrary objects are not
in the list; note `type(True) is bool`, which is in the list. -/
def allowedTypeForCaching : PyVal → Bool
  | PyVal.str _ => true
  | PyVal.int _ => true
  | PyVal.pylist _ => true
  | PyVal.tuple _ => true
  | PyVal.dict _ => true
  | PyVal.bool _ => true
  | PyVal.none => false
  | PyVal.obj _ => false

mutual

/-- Conversion of a Python value to JSON, as `json.dumps` serializes it;
`none` models the `TypeError` raised on non-serializable values. -/
def pyToJson : PyVal → Option Json
  | PyVal.none => some Json.null
  | PyVal.bool b => some (Json.bool b)
  | PyVal.int n => some (Json.num n)
  | PyVal.str s => some (Json.str s)
  | PyVal.pylist xs => (pyToJsonList xs).map Json.arr
  | PyVal.tuple xs => (pyToJsonList xs).map Json.arr
  | PyVal.dict fs => (pyToJsonFields fs).map Json.obj
  | PyVal.obj _ => Option.none

/-- The source item `pyToJson` over list/tuple elements. -/
def pyToJsonList : List PyVal → Option (List Json)
  | [] => some []
  | x :: xs =>
    match pyToJson x, pyToJsonList xs with
    | some j, some js => some (j :: js)
    | _, _ => Option.none

/-- The source item `pyToJson` over dict fields. -/
def pyToJsonFields : List (String × PyVal) → Option (List (String × Json))
  | [] => some []
  | (k, v) :: fs =>
    match pyToJson v, pyToJsonFields fs with
    | some j, some js => some ((k, j) :: js)
    | _, _ => Option.none

end

mutual

/-- Python `repr` of the values above, as used by `str(new_args)` on a
list (quote escaping inside strings is not modelled). -/
def pyRepr : PyVal → String
  | PyVal.none => "None"
  | PyVal.bool b => if b then "True" else "False"
  | PyVal.int n => toString n
  | PyVal.str s => sqS ++ s ++ sqS
  | PyVal.pylist xs => "[" ++ strJoin ", " (pyReprList xs) ++ "]"
  | PyVal.tuple xs =>
    if xs.length = 1 then "(" ++ strJoin ", " (pyReprList xs) ++ ",)"
    else "(" ++ strJoin ", " (pyReprList xs) ++ ")"
  | PyVal.dict fs => lbS ++ strJoin ", " (pyReprFields fs) ++ rbS
  | PyVal.obj i => "<object at " ++ toString i ++ ">"

/-- The source item `pyRepr` over list elements. -/
def pyReprList : List PyVal → List String
  | [] => []
  | x :: xs => pyRepr x :: pyReprList xs

/-- The source item `pyRepr` over dict fields. -/
def pyReprFields : List (String × PyVal) → List String
  | [] => []
  | (k, v) :: fs => (sqS ++ k ++ sqS ++ ": " ++ pyRepr v) :: pyReprFields fs

end

namespace RedisCache

/-- Modelled from the external `hashlib` library:
`hashlib.md5(bytes).hexdigest()` is a fixed deterministic digest.  The
development relies only on equal inputs producing equal digests, so it
is modelled as the identity on the encoded key string. -/
def md5hexdigest (s : String) : String := s

/-- Processing of one argument in the `new_args` loops: dict arguments
are replaced by their `json.dumps(..., sort_keys=True)` rendering
(which raises — `none` — when the dict is not serializable); every
other argument is kept as-is. -/
def dumpDictArg (a : PyVal) : Option PyVal :=
  match a with
  | PyVal.dict fs =>
    (pyToJson (PyVal.dict fs)).map fun j => PyVal.str (dumpsSorted j)
  | _ => some a

/-- Appending one processed argument to the accumulated `new_args`. -/
def newArgsV1 : List PyVal → Option (List PyVal)
  | [] => some []
  | a :: rest =>
    match dumpDictArg a, newArgsV1 rest with
    | some b, some bs => some (b :: bs)
    | _, _ => Option.none

/-- The source item `_args` of `redis_cache_decorator`: `''` when `args` is empty,
otherwise `str(new_args)` built from `args[1:]`. -/
def argsStrV1 (args : List PyVal) : Option String :=
  match args with
  | [] => some ""
  | _ :: rest => (newArgsV1 rest).map fun na => pyRepr (PyVal.pylist na)

/-- The source item `redis_key` of `redis_cache_decorator`:
`json.dumps(dict(func=..., args=..., kwargs=...), sort_keys=True)`;
`none` when the kwargs dict is not serializable. -/
def redisKeyV1 (funcName : String) (args : List PyVal)
    (kwargs : List (String × PyVal)) : Option String :=
  match argsStrV1 args, pyToJson (PyVal.dict kwargs) with
  | some sa, some kj =>
    some (dumpsSorted (Json.obj
      [("func", Json.str funcName), ("args", Json.str sa), ("kwargs", kj)]))
  | _, _ => Option.none

/-- The `new_args` loop of `redis_cache_decorator_v2` applied to
`args[1:]`: arguments whose type is outside
`allowed_types_for_caching` are silently dropped; retained dict
arguments are replaced by their sorted `json.dumps` rendering. -/
def newArgsV2 : List PyVal → Option (List PyVal)
  | [] => some []
  | a :: rest =>
    if allowedTypeForCaching a then
      match dumpDictArg a, newArgsV2 rest with
      | some b, some bs => some (b :: bs)
      | _, _ => Option.none
    else newArgsV2 rest

/-- The source item `_args` of `redis_cache_decorator_v2`. -/
def argsStrV2 (args : List PyVal) : Option String :=
  match args with
  | [] => some ""
  | _ :: rest => (newArgsV2 rest).map fun na => pyRepr (PyVal.pylist na)

/-- The source item `_kwargs` of `redis_cache_decorator_v2`: keyword arguments whose
value's type is outside the allowed list are dropped. -/
def kwargsV2 (kwargs : List (String × PyVal)) : List (String × PyVal) :=
  kwargs.filter fun kv => allowedTypeForCaching kv.2

/-- The source item `redis_key` of `redis_cache_decorator_v2`. -/
def redisKeyV2 (funcName : String) (args : List PyVal)
    (kwargs : List (String × PyVal)) : Option String :=
  match argsStrV2 args, pyToJson (PyVal.dict (kwargsV2 kwargs)) with
  | some sa, some kj =>
    some (dumpsSorted (Json.obj
      [("func", Json.str funcName), ("args", Json.str sa), ("kwargs", kj)]))
  | _, _ => Option.none

/-- The source item `digest_key` of `redis_cache_decorator_v2`. -/
def digestKeyV2 (funcName : String) (args : List PyVal)
    (kwargs : List (String × PyVal)) : Option String :=
  (redisKeyV2 funcName args kwargs).map md5hexdigest

/-- One invocation of the function wrapped by
`redis_cache_decorator(name_space, expire_time)`: compute the digest
key; look it up under the decorator's namespace with `get_key`; on a hit
(any non-empty cached string is truthy) return `json.loads` of it
without invoking `f`; on a miss invoke `f`, store `json.dumps` of its
result with `set_key`, and return the result.  The returned triple is
(result — `none` models a raised exception, store after the call, number
of invocations of `f` during the call).  The wrapped function's result
is a `Json` value, reflecting the claim's assumption that results are
JSON-serializable. -/
def applyCacheV1 (funcName nameSpace : String) (expireTime : Nat)
    (f : List PyVal → List (String × PyVal) → Json)
    (args : List PyVal) (kwargs : List (String × PyVal)) (s : Store) :
    Option Json × Store × Nat :=
  match redisKeyV1 funcName args kwargs with
  | Option.none => (Option.none, s, 0)
  | some rk =>
    let digest_key := md5hexdigest rk
    let result := get_key digest_key (some nameSpace) s
    let miss : Option Json × Store × Nat :=
      let r := f args kwargs
      (some r, set_key digest_key (dumps r) (some nameSpace) s expireTime, 1)
    match result with
    | some c => if c ≠ "" then (loads c, s, 0) else miss
    | Option.none => miss

end RedisCache

namespace PostgresStore

/-- The point a task running `PostgresStore.get_pool` has reached.
Atomic blocks are delimited by the coroutine's suspension points
(`yield from` on the semaphore and on `create_pool`):

* `start`    — about to run the configuration check and the unlocked
               `if not cls._pool` check;
* `acquiring`— saw no pool, waiting on the `_pool_pending` semaphore;
* `locked`   — holds the semaphore, about to re-check `cls._pool` and,
               if still absent, start `create_pool` (a suspension);
* `creating` — inside `yield from create_pool(...)`;
* `failed`   — raised `ConnectionError` (connect was never called);
* `done v`   — returned pool instance `v`. -/
inductive TPC where
  | start
  | acquiring
  | locked
  | creating
  | failed
  | done (v : Nat)
deriving DecidableEq

/-- Shared state of the event loop running `n` concurrent `get_pool`
callers: whether `connect` filled `_connection_params` (at least the
five required fields), the `_pool` class attribute (pool instances are
identified by numbers), the holder of the `_pool_pending` semaphore,
each task's position, how many times `create_pool` has completed, and a
counter supplying fresh pool identities. -/
structure PoolState (n : Nat) where
  configured : Bool
  pool : Option Nat
  semHeld : Option (Fin n)
  tasks : Fin n → TPC
  creations : Nat
  nextId : Nat

/-- The event loop before any `get_pool` caller has run, after a
successful `connect`. -/
def poolInit (n : Nat) : PoolState n :=
  { configured := true
    pool := Option.none
    semHeld := Option.none
    tasks := fun _ => TPC.start
    creations := 0
    nextId := 0 }

/-- One atomic step of one task running `get_pool`, interleaved
arbitrarily with the other tasks by the event loop. -/
inductive PoolStep (n : Nat) : PoolState n → PoolState n → Prop where
  /-- The source item `len(cls._connection_params) < 5`: raise `ConnectionError`. -/
  | startFail (s : PoolState n) (i : Fin n) :
      s.tasks i = TPC.start → s.configured = false →
      PoolStep n s { s with tasks := Function.update s.tasks i TPC.failed }
  /-- Unlocked check sees an existing pool: return it at once. -/
  | startHit (s : PoolState n) (i : Fin n) (v : Nat) :
      s.tasks i = TPC.start → s.configured = true → s.pool = some v →
      PoolStep n s { s with tasks := Function.update s.tasks i (TPC.done v) }
  /-- Unlocked check sees no pool: wait on `_pool_pending`. -/
  | startMiss (s : PoolState n) (i : Fin n) :
      s.tasks i = TPC.start → s.configured = true → s.pool = Option.none →
      PoolStep n s { s with tasks := Function.update s.tasks i TPC.acquiring }
  /-- The semaphore is free: acquire it. -/
  | acquire (s : PoolState n) (i : Fin n) :
      s.tasks i = TPC.acquiring → s.semHeld = Option.none →
      PoolStep n s { s with semHeld := some i
                            tasks := Function.update s.tasks i TPC.locked }
  /-- Locked re-check sees a pool (someone else created it while this
  task waited): release the semaphore and return that pool. -/
  | lockedHit (s : PoolState n) (i : Fin n) (v : Nat) :
      s.tasks i = TPC.locked → s.pool = some v →
      PoolStep n s { s with semHeld := Option.none
                            tasks := Function.update s.tasks i (TPC.done v) }
  /-- Locked re-check still sees no pool: start `create_pool`
  (suspends). -/
  | lockedMiss (s : PoolState n) (i : Fin n) :
      s.tasks i = TPC.locked → s.pool = Option.none →
      PoolStep n s { s with tasks := Function.update s.tasks i TPC.creating }
  /-- The source item `create_pool` completes: assign `cls._pool`, schedule
  `_periodic_cleansing` (a fire-and-forget task, not modelled further),
  release the semaphore on leaving the `with` block, and return
  `cls._pool` (re-read in the same atomic block).  The source performs
  the assignment unconditionally at this point; no guard on `s.pool`
  appears here. -/
  | create (s : PoolState n) (i : Fin n) :
      s.tasks i = TPC.creating →
      PoolStep n s { s with pool := some s.nextId
                            creations := s.creations + 1
                            nextId := s.nextId + 1
                            semHeld := Option.none
                            tasks := Function.update s.tasks i
                              (TPC.done s.nextId) }

/-- States the event loop can reach from the initial state. -/
def PoolReach (n : Nat) (s : PoolState n) : Prop :=
  Relation.ReflTransGen (PoolStep n) (poolInit n) s

end PostgresStore

/-- The source item `strJoin` at the character-list level. -/
def charsJoin (sep : List Char) : List (List Char) → List Char
  | [] => []
  | [x] => x
  | x :: y :: xs => x ++ sep ++ charsJoin sep (y :: xs)

namespace PostgresStore

/-- One where-clause entry with its value substituted directly in place
of the placeholder (what executing the clause with positionally bound
values means for the i-th value). -/
def directEntry {α : Type} (vr : α → String) (e : String × String × α) :
    String :=
  e.1 ++ " " ++ e.2.1 ++ " " ++ vr e.2.2

/-- One group rendered with values substituted in place. -/
def directGroup {α : Type} (vr : α → String) (g : Group α) : String :=
  "(" ++ strJoin " and " (g.map (directEntry vr)) ++ ")"

/-- The whole where clause rendered with values substituted in place. -/
def directWhere {α : Type} (vr : α → String) (wk : FilterExpr α) : String :=
  strJoin " or " (wk.map (directGroup vr))

end PostgresStore

namespace PostgresStore

/-- Inductive invariant of the `get_pool` machine: at most one creation
ever happens, the pool exists exactly when a creation has happened,
finished tasks returned the current pool, a task inside `create_pool`
implies no pool exists yet, and any task holding the critical section
(`locked` or `creating`) is the semaphore's holder. -/
def PoolInv {n : Nat} (s : PoolState n) : Prop :=
  s.creations ≤ 1
  ∧ (s.pool = Option.none ↔ s.creations = 0)
  ∧ (∀ i v, s.tasks i = TPC.done v → s.pool = some v)
  ∧ (∀ i, s.tasks i = TPC.creating → s.pool = Option.none)
  ∧ (∀ i, s.tasks i = TPC.locked ∨ s.tasks i = TPC.creating →
      s.semHeld = some i)

end PostgresStore

/-! ## Claim theorems -/

/-- Claim C3, counterexample: `select("t", filters=[dict(a=(">", 1))],
order_by="a", limit=10, offset=5)` does *not* execute the SQL text
`select * from t where (a > %s) order by a limit 10 offset 5;`: the
select template already wraps its condition slot in parentheses and the
group rendered by `make_and_query` carries its own, so the where clause
is double-parenthesized. -/
theorem select_example_not_single_parens :
    (PostgresStore.selectQuery "t" (some "a") Option.none
      (some [[("a", ">", (1 : Int))]]) 10 5).1 ≠
    "select * from t where (a > %s) order by a limit 10 offset 5;" := by
  decide

/-- Claim C3, amended: The call executes
`select * from t where ((a > %s)) order by a limit 10 offset 5;`
with bound values `(1,)`. -/
theorem select_example_rendering :
    PostgresStore.selectQuery "t" (some "a") Option.none
      (some [[("a", ">", (1 : Int))]]) 10 5 =
    ("select * from t where ((a > %s)) order by a limit 10 offset 5;",
      [(1 : Int)]) := by
  decide

/-- Claim C4: The `transaction` wrapper first issues `BEGIN`; when the
wrapped operation raises, it issues `ROLLBACK`, swallows the exception
and the call produces no value (`None`); when the operation returns
normally, it issues `COMMIT` and the call returns the operation's
result. -/
theorem transaction_rollback_swallows_commit_returns {ε α : Type}
    (op : List String → List String × Except ε α) (t : List String) :
    (∀ t2 e, op (t ++ ["BEGIN"]) = (t2, Except.error e) →
      PostgresStore.transaction op t = (t2 ++ ["ROLLBACK"], Option.none))
    ∧ (∀ t2 a, op (t ++ ["BEGIN"]) = (t2, Except.ok a) →
      PostgresStore.transaction op t = (t2 ++ ["COMMIT"], some a)) := by
  constructor
  · intro t2 e h
    simp [PostgresStore.transaction, h]
  · intro t2 a h
    simp [PostgresStore.transaction, h]

/-- Witness for C4: a failing operation yields `BEGIN, ROLLBACK` and no
value; a succeeding one yields `BEGIN, COMMIT` and its result. -/
theorem transaction_rollback_swallows_commit_returns_witness :
    PostgresStore.transaction
      (fun tr => (tr, (Except.error () : Except Unit Nat))) [] =
        (["BEGIN", "ROLLBACK"], Option.none)
    ∧ PostgresStore.transaction
      (fun tr => (tr, (Except.ok 7 : Except Unit Nat))) [] =
        (["BEGIN", "COMMIT"], some 7) :=
  ⟨(transaction_rollback_swallows_commit_returns
      (fun tr => (tr, (Except.error () : Except Unit Nat))) []).1
      ["BEGIN"] () rfl,
   (transaction_rollback_swallows_commit_returns
      (fun tr => (tr, (Except.ok 7 : Except Unit Nat))) []).2
      ["BEGIN"] 7 rfl⟩

/-- Claim C8: When the bounded wait for a cursor expires,
`cursor_from_connection_source` raises `TimeoutError` to the caller
after logging one synchronous info line; the diagnostic pool-state
snapshot is only *scheduled* (appended to the pending fire-and-forget
tasks) and none of its effects occur before the exception propagates —
the returned state shows the task pending, not run. -/
theorem cursor_acquire_timeout_schedules_diagnostic (w : Nat)
    (st : PostgresStore.DiagState) :
    PostgresStore.cursor_from_connection_source
      (Option.none : Option Unit) w st =
    (Except.error PostgresStore.PgError.timeoutError,
      { logs := st.logs ++
          ["Could not acquire connection from pool in " ++ toString w ++
            " seconds"],
        scheduled := st.scheduled ++ ["log_connection_pool_state"] }) :=
  rfl

/-- Claim C7, counterexample: Not every key-bearing operation works on
`namespace + ':' + key`: `hmset('k', v, namespace='n')` operates on the
redis key `'n'` itself (the hash name), not on `'n:k'`; and
`set_key_if_not_exists` with the supplied namespace `''` operates on the
bare key `'k'`, not on `':k'`. -/
theorem namespacing_exceptions_counterexample :
    RedisCache.hmsetTarget "k" "n" ≠ "n" ++ ":" ++ "k"
    ∧ RedisCache.setKeyIfNotExistsTarget "k" (some "") ≠ "" ++ ":" ++ "k" := by
  constructor
  · decide
  · decide

/-- Claim C7, amended: Every key-bearing operation that goes through
`_get_key` — `set_key`, `get_key`, `increment_value`,
`increment_by_value`, `delete`, `lpush`, `llen`, `lrange`, and
`set_key_if_not_exists` for a truthy (non-empty) namespace — operates on
the composite key `namespace + ':' + key`; the hash-field operations
(`hmset`, `hmget`, `hdel`, `hgetall`) instead use the namespace itself
as the redis key, and `set_key_if_not_exists` with the empty namespace
uses the bare key. -/
theorem namespaced_key_targets (k ns : String) (fields : List String) :
    RedisCache.setKeyTarget k (some ns) = ns ++ ":" ++ k
    ∧ RedisCache.getKeyTarget k (some ns) = ns ++ ":" ++ k
    ∧ RedisCache.incrementValueTarget k (some ns) = ns ++ ":" ++ k
    ∧ RedisCache.incrementByValueTarget k (some ns) = ns ++ ":" ++ k
    ∧ RedisCache.deleteTarget k (some ns) = ns ++ ":" ++ k
    ∧ RedisCache.lpushTarget ns k = ns ++ ":" ++ k
    ∧ RedisCache.llenTarget ns k = ns ++ ":" ++ k
    ∧ RedisCache.lrangeTarget ns k = ns ++ ":" ++ k
    ∧ RedisCache.setKeyIfNotExistsTarget k (some ns) =
        (if ns = "" then k else ns ++ ":" ++ k)
    ∧ RedisCache.hmsetTarget k ns = ns
    ∧ RedisCache.hmgetTarget fields ns = ns
    ∧ RedisCache.hdelTarget k ns = ns
    ∧ RedisCache.hgetallTarget ns = ns := by
  refine ⟨rfl, rfl, rfl, rfl, rfl, rfl, rfl, rfl, ?_, rfl, rfl, rfl, rfl⟩
  by_cases h : ns = ""
  · simp [RedisCache.setKeyIfNotExistsTarget, RedisCache.truthyNs, h]
  · simp [RedisCache.setKeyIfNotExistsTarget, RedisCache.truthyNs,
      RedisCache._get_key, h]

/-- Filtering out the bindings of one key leaves lookups of a different
key unchanged. -/
theorem lookup_filter_ne (k' k : String) (s : RedisCache.Store)
    (h : k' ≠ k) :
    (s.filter fun p => p.1 ≠ k).lookup k' = s.lookup k' := by
  induction s with
  | nil => rfl
  | cons p rest ih =>
    rw [List.filter_cons]
    by_cases hp : p.1 = k
    · have h1 : (decide (p.1 ≠ k)) = false := by simp [hp]
      have h2 : (k' == p.1) = false := by
        simp [hp]
        exact h
      rw [h1]
      simp only [Bool.false_eq_true, if_false, ih, List.lookup, h2]
    · have h1 : (decide (p.1 ≠ k)) = true := by simp [hp]
      rw [h1]
      simp only [if_true, List.lookup, ih]

/-- The source item `storeSet` binds its own key. -/
theorem lookup_storeSet_self (k v : String) (s : RedisCache.Store) :
    (RedisCache.storeSet k v s).lookup k = some v := by
  simp [RedisCache.storeSet, List.lookup]

/-- The source item `storeSet` leaves other keys' lookups unchanged. -/
theorem lookup_storeSet_ne (k' k v : String) (s : RedisCache.Store)
    (h : k' ≠ k) :
    (RedisCache.storeSet k v s).lookup k' = s.lookup k' := by
  have hk' : (k' == k) = false := by simpa using h
  simp only [RedisCache.storeSet, List.lookup, hk',
    lookup_filter_ne k' k s h]

/-- Prepending the separator strictly lengthens a key, so the composite
key differs from the bare one. -/
theorem colon_key_ne (k : String) : (":" ++ k) ≠ k := by
  intro h
  have h2 := congrArg String.length h
  rw [String.length_append] at h2
  have h3 : ":".length = 1 := rfl
  omega

/-- Claim C9: With the empty-string namespace, `set_key` and `get_key`
prepend the separator (they test against `None`), while
`set_key_if_not_exists` tests truthiness and does not prepend;
consequently a value stored by `set_key_if_not_exists(k, v,
namespace='')` is invisible to a subsequent `get_key(k, namespace='')`:
the read returns exactly what it returned before the write. -/
theorem empty_namespace_asymmetry (k v : String) (e : Nat)
    (s : RedisCache.Store) :
    RedisCache.setKeyTarget k (some "") = ":" ++ k
    ∧ RedisCache.getKeyTarget k (some "") = ":" ++ k
    ∧ RedisCache.setKeyIfNotExistsTarget k (some "") = k
    ∧ RedisCache.get_key k (some "")
        (RedisCache.set_key_if_not_exists k v (some "") s e).2 =
      RedisCache.get_key k (some "") s := by
  refine ⟨rfl, rfl, rfl, ?_⟩
  unfold RedisCache.get_key RedisCache.set_key_if_not_exists
  have htgt : RedisCache.getKeyTarget k (some "") = ":" ++ k := rfl
  have hnx : RedisCache.setKeyIfNotExistsTarget k (some "") = k := rfl
  rw [htgt, hnx]
  cases hl : s.lookup k with
  | some w => simp [hl]
  | none =>
    simp only [hl]
    simpa using lookup_storeSet_ne (":" ++ k) k v s (colon_key_ne k)

/-- The bare wildcard pattern matches every key. -/
theorem globMatch_star (cs : List Char) :
    RedisCache.globMatch ['*'] cs = true := by
  induction cs with
  | nil => simp [RedisCache.globMatch]
  | cons c cs ih =>
    rw [RedisCache.globMatch]
    simp [ih]

/-- Listing keys with the pattern `*` returns every key of the store. -/
theorem storeKeys_star (s : RedisCache.Store) :
    RedisCache.storeKeys "*" s = s.map Prod.fst := by
  unfold RedisCache.storeKeys
  apply List.filter_eq_self.mpr
  intro a _
  have hd : "*".data = ['*'] := rfl
  rw [hd, globMatch_star]

/-- Claim C10: `clear_namespace('')` builds the bare wildcard pattern
`'*'`, hence deletes every key present in the store at listing time and
returns the number of keys that were listed. -/
theorem clear_namespace_empty_deletes_all (s : RedisCache.Store) :
    RedisCache.clear_namespace "" s = (s.length, []) := by
  have hpat : ("" ++ "*") = "*" := by simp
  unfold RedisCache.clear_namespace
  rw [hpat]
  unfold RedisCache._delete_by_pattern
  have hne : ("*" == "") = false := by decide
  rw [hne]
  simp only [Bool.false_eq_true, if_false, storeKeys_star]
  cases s with
  | nil => rfl
  | cons p rest =>
    simp only [List.map_cons, List.isEmpty_cons, Bool.false_eq_true,
      if_false, List.length_cons, List.length_map]
    rw [List.filter_eq_nil_iff.mpr]
    intro q hq
    simp only [Bool.not_eq_true', Bool.not_eq_false]
    have : q.1 ∈ (p :: rest).map Prod.fst := List.mem_map_of_mem Prod.fst hq
    simp only [List.map_cons] at this
    simpa using this

/-! ### Placeholder counting and substitution lemmas (for C2) -/

/-- Unfolding `countPS` over two known head characters. -/
theorem countPS_cons_cons (a b : Char) (t : List Char) :
    countPS (a :: b :: t) =
      (if a = '%' ∧ b = 's' then 1 else 0) + countPS (b :: t) := by
  rw [countPS]

/-- A single character contains no placeholder. -/
theorem countPS_singleton (a : Char) : countPS [a] = 0 := by
  simp [countPS]

/-- Head-step form of `countPS`. -/
theorem countPS_cons (a : Char) (t : List Char) :
    countPS (a :: t) = psBoundary [a] t + countPS t := by
  cases t with
  | nil => simp [countPS, psBoundary, startsS]
  | cons c t2 =>
    rw [countPS_cons_cons]
    by_cases ha : a = '%' <;> by_cases hc : c = 's' <;>
      simp [psBoundary, endsPercent, startsS, ha, hc]

/-- No boundary occurrence when the right side does not start with
`s`. -/
theorem psBoundary_not_s (xs : List Char) (c : Char) (l : List Char)
    (hc : c ≠ 's') : psBoundary xs (c :: l) = 0 := by
  simp [psBoundary, startsS, hc]

/-- No boundary occurrence into an empty right side. -/
theorem psBoundary_nil_right (xs : List Char) : psBoundary xs [] = 0 := by
  simp [psBoundary, startsS]

/-- No boundary occurrence when the left side does not end with `%`. -/
theorem psBoundary_not_percent (xs ys : List Char)
    (h : endsPercent xs = false) : psBoundary xs ys = 0 := by
  simp [psBoundary, h]

/-- Occurrences of `%s` in a concatenation: those of each side plus a
possible one across the boundary. -/
theorem countPS_append (xs ys : List Char) :
    countPS (xs ++ ys) = countPS xs + psBoundary xs ys + countPS ys := by
  induction xs with
  | nil => simp [countPS, psBoundary, endsPercent]
  | cons a rest ih =>
    cases rest with
    | nil =>
      cases ys with
      | nil => simp [countPS, psBoundary, startsS]
      | cons c ys2 =>
        rw [List.cons_append, List.nil_append, countPS_cons_cons,
          countPS_singleton]
        by_cases ha : a = '%' <;> by_cases hc : c = 's' <;>
          simp [psBoundary, endsPercent, startsS, ha, hc]
    | cons b rest2 =>
      have hps : psBoundary (a :: b :: rest2) ys =
          psBoundary (b :: rest2) ys := by
        simp [psBoundary, endsPercent, List.getLast?_cons_cons]
      rw [List.cons_append, List.cons_append, countPS_cons_cons,
        show b :: (rest2 ++ ys) = (b :: rest2) ++ ys from rfl, ih, hps,
        countPS_cons_cons]
      omega

/-- A character that cannot open a placeholder here passes through
substitution. -/
theorem substPS_cons_safe (a : Char) (t : List Char)
    (vs : List (List Char)) (h : psBoundary [a] t = 0) :
    substPS (a :: t) vs = a :: substPS t vs := by
  cases t with
  | nil => cases vs <;> simp [substPS]
  | cons c t2 =>
    have hnot : ¬(a = '%' ∧ c = 's') := by
      intro hac
      simp [psBoundary, endsPercent, startsS, hac.1, hac.2] at h
    cases vs with
    | nil => rw [substPS]
    | cons v vs2 =>
      rw [substPS]
      simp [hnot]

/-- A placeholder-free prefix passes through substitution unchanged and
consumes no values. -/
theorem substPS_copy (xs ys : List Char) (vs : List (List Char))
    (h0 : countPS xs = 0) (hb : psBoundary xs ys = 0) :
    substPS (xs ++ ys) vs = xs ++ substPS ys vs := by
  induction xs with
  | nil => simp
  | cons a rest ih =>
    cases rest with
    | nil =>
      rw [List.cons_append, List.nil_append, substPS_cons_safe a ys vs hb]
      rfl
    | cons b rest2 =>
      have hsafe : psBoundary [a] ((b :: rest2) ++ ys) = 0 := by
        rw [countPS_cons_cons] at h0
        by_cases hab : a = '%' ∧ b = 's'
        · simp [hab] at h0
        · rw [List.cons_append]
          push_neg at hab
          by_cases ha : a = '%'
          · exact psBoundary_not_s [a] b _ (hab ha)
          · apply psBoundary_not_percent
            simp [endsPercent, ha]
      have h0' : countPS (b :: rest2) = 0 := by
        rw [countPS_cons_cons] at h0
        omega
      have hb' : psBoundary (b :: rest2) ys = 0 := by
        have heq : psBoundary (a :: b :: rest2) ys =
            psBoundary (b :: rest2) ys := by
          simp [psBoundary, endsPercent, List.getLast?_cons_cons]
        omega
      rw [List.cons_append, substPS_cons_safe a _ vs hsafe, ih h0' hb']
      rfl

/-- Substituting into a placeholder consumes exactly one value. -/
theorem substPS_placeholder (rest v : List Char) (vs : List (List Char)) :
    substPS ('%' :: 's' :: rest) (v :: vs) = v ++ substPS rest vs := by
  rw [substPS]
  simp

/-- The source item `strJoin` at the `String` level agrees with `charsJoin` on the
underlying characters. -/
theorem strJoin_data (sep : String) (parts : List String) :
    (strJoin sep parts).data = charsJoin sep.data (parts.map String.data) := by
  induction parts with
  | nil => rfl
  | cons x xs ih =>
    cases xs with
    | nil => rfl
    | cons y ys =>
      rw [strJoin, charsJoin.eq_def]
      simp only [List.map_cons, String.data_append, ih, List.map_cons]

/-- No boundary occurrence when the right side does not start with `s`
(head-form). -/
theorem psBoundary_not_startsS (xs ys : List Char)
    (h : startsS ys = false) : psBoundary xs ys = 0 := by
  simp [psBoundary, h]

/-- Appending a non-`%` character closes the left side against boundary
occurrences. -/
theorem endsPercent_concat (xs : List Char) (c : Char) (h : c ≠ '%') :
    endsPercent (xs ++ [c]) = false := by
  simp [endsPercent, List.getLast?_concat, h]

/-- A nonempty right append decides the last character. -/
theorem endsPercent_append_right (xs ys : List Char) (h : ys ≠ []) :
    endsPercent (xs ++ ys) = endsPercent ys := by
  simp [endsPercent, List.getLast?_append_of_ne_nil xs h]

/-- Counting placeholders across a separator-joined list: separators
that contain no placeholder, do not start with `s` and do not end with
`%` contribute nothing. -/
theorem countPS_charsJoin (sep : List Char) (parts : List (List Char))
    (hsep : countPS sep = 0) (hhead : startsS sep = false)
    (hlast : endsPercent sep = false) (hne : sep ≠ []) :
    countPS (charsJoin sep parts) = (parts.map countPS).sum := by
  induction parts with
  | nil => simp [charsJoin, countPS]
  | cons x xs ih =>
    cases xs with
    | nil => simp [charsJoin]
    | cons y ys =>
      rw [charsJoin, countPS_append (x ++ sep) _, countPS_append x sep,
        psBoundary_not_startsS x sep hhead,
        psBoundary_not_percent (x ++ sep) _
          (by rw [endsPercent_append_right x sep hne]; exact hlast),
        hsep, ih]
      simp only [List.map_cons, List.sum_cons]
      omega

/-- A sum of ones counts the list. -/
theorem sum_map_ones {β : Type} (l : List β) (f : β → Nat)
    (h : ∀ x ∈ l, f x = 1) : (l.map f).sum = l.length := by
  induction l with
  | nil => rfl
  | cons x xs ih =>
    simp only [List.map_cons, List.sum_cons, List.length_cons,
      h x (by simp)]
    rw [ih fun z hz => h z (by simp [hz])]
    omega

/-- One rendered where-entry contains exactly one placeholder, provided
its column and operator contain none. -/
theorem countPS_entry (col op : String) (h1 : countPS col.data = 0)
    (h2 : countPS op.data = 0) :
    countPS (PostgresStore.whereAndFmt col op).data = 1 := by
  have hdata : (PostgresStore.whereAndFmt col op).data =
      ((col.data ++ [' ']) ++ op.data) ++ [' ', '%', 's'] := by
    unfold PostgresStore.whereAndFmt
    rw [String.data_append, String.data_append, String.data_append]
  rw [hdata, countPS_append _ [' ', '%', 's'],
    countPS_append (col.data ++ [' ']) op.data,
    countPS_append col.data [' '],
    psBoundary_not_s col.data ' ' [] (by decide),
    psBoundary_not_s _ ' ' ['%', 's'] (by decide),
    psBoundary_not_percent (col.data ++ [' ']) op.data
      (endsPercent_concat col.data ' ' (by decide)),
    h1, h2]
  rfl

/-- One rendered group contains exactly as many placeholders as it has
entries. -/
theorem countPS_group {α : Type} (g : PostgresStore.Group α)
    (h : ∀ e ∈ g, countPS e.1.data = 0 ∧ countPS e.2.1.data = 0) :
    countPS (PostgresStore.make_and_query g).data = g.length := by
  unfold PostgresStore.make_and_query
  rw [String.data_append, String.data_append]
  have hlp : ("(" : String).data = ['('] := rfl
  have hrp : (")" : String).data = [')'] := rfl
  rw [hlp, hrp, countPS_append _ [')'],
    psBoundary_not_s _ ')' [] (by decide),
    countPS_append ['('] _, psBoundary_not_percent ['('] _ (by decide),
    strJoin_data,
    countPS_charsJoin _ _ (by decide) (by decide) (by decide) (by decide),
    sum_map_ones]
  · simp [countPS]
  · intro x hx
    simp only [List.mem_map] at hx
    obtain ⟨y, hy, rfl⟩ := hx
    obtain ⟨e, he, rfl⟩ := hy
    exact countPS_entry e.1 e.2.1 (h e he).1 (h e he).2

/-- The whole rendered where clause contains exactly as many
placeholders as there are collected values. -/
theorem countPS_clause {α : Type} (wk : PostgresStore.FilterExpr α)
    (h : ∀ g ∈ wk, ∀ e ∈ g, countPS e.1.data = 0 ∧ countPS e.2.1.data = 0) :
    countPS (PostgresStore._get_where_clause_with_values wk).1.data =
      (PostgresStore.whereValues wk).length := by
  unfold PostgresStore._get_where_clause_with_values
  rw [strJoin_data,
    countPS_charsJoin _ _ (by decide) (by decide) (by decide) (by decide)]
  rw [PostgresStore.whereValues, List.length_flatten, List.map_map,
    List.map_map]
  congr 1
  rw [List.map_map]
  apply List.map_congr_left
  intro g hg
  simp only [Function.comp_apply, List.length_map]
  exact countPS_group g (h g hg)


/-- Substituting through one rendered entry replaces its placeholder by
the rendered value and continues with the remaining input. -/
theorem substPS_entry {α : Type} (vr : α → String) (e : String × String × α)
    (R : List Char) (vs : List (List Char))
    (h1 : countPS e.1.data = 0) (h2 : countPS e.2.1.data = 0) :
    substPS ((PostgresStore.whereAndFmt e.1 e.2.1).data ++ R)
        ((vr e.2.2).data :: vs) =
      (PostgresStore.directEntry vr e).data ++ substPS R vs := by
  have hsp : (" " : String).data = [' '] := rfl
  have hps : (" %s" : String).data = [' ', '%', 's'] := rfl
  have hdata : (PostgresStore.whereAndFmt e.1 e.2.1).data ++ R =
      e.1.data ++ (' ' :: (e.2.1.data ++ (' ' :: ('%' :: 's' :: R)))) := by
    unfold PostgresStore.whereAndFmt
    rw [String.data_append, String.data_append, String.data_append, hsp,
      hps]
    simp [List.append_assoc]
  rw [hdata,
    substPS_copy e.1.data _ _ h1 (psBoundary_not_s _ ' ' _ (by decide)),
    substPS_cons_safe ' ' _ _ (psBoundary_not_percent [' '] _ (by decide)),
    substPS_copy e.2.1.data _ _ h2 (psBoundary_not_s _ ' ' _ (by decide)),
    substPS_cons_safe ' ' _ _ (psBoundary_not_s [' '] '%' _ (by decide)),
    substPS_placeholder]
  unfold PostgresStore.directEntry
  rw [String.data_append, String.data_append, String.data_append, hsp]
  simp [List.append_assoc]

/-- Two-element unfolding of `charsJoin`. -/
theorem charsJoin_cons_cons (sep x y : List Char) (xs : List (List Char)) :
    charsJoin sep (x :: y :: xs) = (x ++ sep) ++ charsJoin sep (y :: xs) := by
  rw [charsJoin]

/-- A non-`%` character passes through substitution. -/
theorem substPS_cons_ne (a : Char) (t : List Char) (vs : List (List Char))
    (ha : a ≠ '%') : substPS (a :: t) vs = a :: substPS t vs :=
  substPS_cons_safe a t vs
    (psBoundary_not_percent [a] t (by simp [endsPercent, ha]))

/-- Substituting through an `' and '`-joined entry list consumes the
rendered value of each entry, in order. -/
theorem substPS_and_list {α : Type} (vr : α → String)
    (g : PostgresStore.Group α) (R : List Char) (vs : List (List Char))
    (h : ∀ e ∈ g, countPS e.1.data = 0 ∧ countPS e.2.1.data = 0) :
    substPS ((charsJoin (" and " : String).data
        (g.map fun e => (PostgresStore.whereAndFmt e.1 e.2.1).data)) ++ R)
        ((g.map fun e => (vr e.2.2).data) ++ vs) =
      (charsJoin (" and " : String).data
        (g.map fun e => (PostgresStore.directEntry vr e).data)) ++
        substPS R vs := by
  induction g with
  | nil => simp [charsJoin]
  | cons e g' ih =>
    cases g' with
    | nil =>
      simp only [List.map_cons, List.map_nil, charsJoin,
        List.singleton_append, List.cons_append, List.nil_append]
      exact substPS_entry vr e R vs (h e (by simp)).1 (h e (by simp)).2
    | cons e2 g'' =>
      simp only [List.map_cons, charsJoin_cons_cons, List.cons_append,
        List.append_assoc, List.nil_append]
      rw [substPS_entry vr e _ _ (h e (by simp)).1 (h e (by simp)).2,
        substPS_cons_ne ' ' _ _ (by decide),
        substPS_cons_ne 'a' _ _ (by decide),
        substPS_cons_ne 'n' _ _ (by decide),
        substPS_cons_ne 'd' _ _ (by decide),
        substPS_cons_ne ' ' _ _ (by decide)]
      have ih2 := ih fun z hz => h z (by simp [hz])
      simp only [List.map_cons, List.cons_append] at ih2
      rw [ih2]

/-- Substituting through one rendered group consumes the group's values
in entry order. -/
theorem substPS_group {α : Type} (vr : α → String)
    (g : PostgresStore.Group α) (R : List Char) (vs : List (List Char))
    (h : ∀ e ∈ g, countPS e.1.data = 0 ∧ countPS e.2.1.data = 0) :
    substPS ((PostgresStore.make_and_query g).data ++ R)
        ((g.map fun e => (vr e.2.2).data) ++ vs) =
      (PostgresStore.directGroup vr g).data ++ substPS R vs := by
  unfold PostgresStore.make_and_query PostgresStore.directGroup
  rw [String.data_append, String.data_append, String.data_append,
    String.data_append, strJoin_data, strJoin_data]
  have hlp : ("(" : String).data = ['('] := rfl
  have hrp : (")" : String).data = [')'] := rfl
  rw [hlp, hrp]
  simp only [List.map_map, Function.comp_def, List.cons_append,
    List.singleton_append, List.append_assoc, List.nil_append]
  rw [substPS_cons_ne '(' _ _ (by decide),
    substPS_and_list vr g _ vs h,
    substPS_cons_ne ')' _ _ (by decide)]

/-- Substituting through the `' or '`-joined group list consumes all
collected values, group by group. -/
theorem substPS_or_list {α : Type} (vr : α → String)
    (wk : PostgresStore.FilterExpr α) (R : List Char)
    (vs : List (List Char))
    (h : ∀ g ∈ wk, ∀ e ∈ g, countPS e.1.data = 0 ∧ countPS e.2.1.data = 0) :
    substPS ((charsJoin (" or " : String).data
        (wk.map fun g => (PostgresStore.make_and_query g).data)) ++ R)
        ((wk.map fun g => g.map fun e => (vr e.2.2).data).flatten ++ vs) =
      (charsJoin (" or " : String).data
        (wk.map fun g => (PostgresStore.directGroup vr g).data)) ++
        substPS R vs := by
  induction wk with
  | nil => simp [charsJoin]
  | cons g wk' ih =>
    cases wk' with
    | nil =>
      simp only [List.map_cons, List.map_nil, charsJoin,
        List.flatten_cons, List.flatten_nil, List.append_nil]
      exact substPS_group vr g R vs (h g (by simp))
    | cons g2 wk'' =>
      simp only [List.map_cons, charsJoin_cons_cons, List.flatten_cons,
        List.cons_append, List.append_assoc, List.nil_append]
      rw [substPS_group vr g _ _ (h g (by simp)),
        substPS_cons_ne ' ' _ _ (by decide),
        substPS_cons_ne 'o' _ _ (by decide),
        substPS_cons_ne 'r' _ _ (by decide),
        substPS_cons_ne ' ' _ _ (by decide)]
      have ih2 := ih fun z hz => h z (by simp [hz])
      simp only [List.map_cons, List.cons_append, List.flatten_cons,
        List.append_assoc] at ih2
      rw [ih2]

/-- Claim C2: For every FilterExpression whose column names and operators
contain no `%s` themselves, `_get_where_clause_with_values` returns a
clause and values whose placeholder count equals the number of values,
and substituting the values left to right for the successive
placeholders yields exactly the clause with each entry's own value in
its position (groups joined by `' or '`, entries by `' and '`): the
i-th placeholder corresponds to the i-th value. -/
theorem where_clause_placeholder_value_alignment {α : Type}
    (wk : PostgresStore.FilterExpr α) (vr : α → String)
    (h : ∀ g ∈ wk, ∀ e ∈ g, countPS e.1.data = 0 ∧ countPS e.2.1.data = 0) :
    countPS (PostgresStore._get_where_clause_with_values wk).1.data =
      (PostgresStore._get_where_clause_with_values wk).2.length
    ∧ substPS (PostgresStore._get_where_clause_with_values wk).1.data
        ((PostgresStore._get_where_clause_with_values wk).2.map
          fun x => (vr x).data) =
      (PostgresStore.directWhere vr wk).data := by
  constructor
  · exact countPS_clause wk h
  · unfold PostgresStore._get_where_clause_with_values
      PostgresStore.directWhere PostgresStore.whereValues
    rw [strJoin_data, strJoin_data, List.map_flatten]
    simp only [List.map_map, Function.comp_def]
    have hor := substPS_or_list vr wk [] [] h
    rw [show substPS ([] : List Char) [] = [] from rfl] at hor
    simp only [List.append_nil] at hor
    exact hor

/-- Witness for C2 at a concrete two-group filter expression. -/
theorem where_clause_placeholder_value_alignment_witness :
    (∀ g ∈ ([[("a", ">", (1 : Int))],
        [("b", "=", (2 : Int)), ("c", "<", (3 : Int))]] :
        PostgresStore.FilterExpr Int), ∀ e ∈ g,
      countPS e.1.data = 0 ∧ countPS e.2.1.data = 0)
    ∧ (countPS (PostgresStore._get_where_clause_with_values
          ([[("a", ">", 1)], [("b", "=", 2), ("c", "<", 3)]] :
            PostgresStore.FilterExpr Int)).1.data =
        (PostgresStore._get_where_clause_with_values
          ([[("a", ">", 1)], [("b", "=", 2), ("c", "<", 3)]] :
            PostgresStore.FilterExpr Int)).2.length
      ∧ substPS (PostgresStore._get_where_clause_with_values
          ([[("a", ">", 1)], [("b", "=", 2), ("c", "<", 3)]] :
            PostgresStore.FilterExpr Int)).1.data
          ((PostgresStore._get_where_clause_with_values
            ([[("a", ">", 1)], [("b", "=", 2), ("c", "<", 3)]] :
              PostgresStore.FilterExpr Int)).2.map
            fun x => (toString x).data) =
        (PostgresStore.directWhere (fun x : Int => toString x)
          [[("a", ">", 1)], [("b", "=", 2), ("c", "<", 3)]]).data) :=
  ⟨by decide,
   where_clause_placeholder_value_alignment
     [[("a", ">", 1)], [("b", "=", 2), ("c", "<", 3)]]
     (fun x : Int => toString x) (by decide)⟩

/-- The source item `Nat.toDigitsCore` never discards its accumulator. -/
theorem toDigitsCore_ne_nil (b f n : Nat) (ds : List Char) (h : ds ≠ []) :
    Nat.toDigitsCore b f n ds ≠ [] := by
  induction f generalizing n ds with
  | zero => simpa [Nat.toDigitsCore] using h
  | succ f ih =>
    rw [Nat.toDigitsCore]
    split
    · simp
    · exact ih _ _ (by simp)

/-- Decimal digit strings are never empty. -/
theorem toDigits_ne_nil (b n : Nat) : Nat.toDigits b n ≠ [] := by
  unfold Nat.toDigits
  rw [Nat.toDigitsCore]
  split
  · simp
  · exact toDigitsCore_ne_nil _ _ _ _ (by simp)

/-- A nonempty character list yields a nonempty string. -/
theorem asString_ne_empty (l : List Char) (h : l ≠ []) :
    l.asString ≠ "" := by
  intro he
  apply h
  have hd := congrArg String.data he
  simpa [List.asString] using hd

/-- The source item `Nat.repr` is never empty. -/
theorem natRepr_ne_empty (n : Nat) : Nat.repr n ≠ "" :=
  asString_ne_empty _ (toDigits_ne_nil 10 n)

/-- The decimal rendering of an integer is never empty. -/
theorem intToString_ne_empty (i : Int) : toString i ≠ "" := by
  cases i with
  | ofNat m => exact natRepr_ne_empty m
  | negSucc m =>
    intro h
    have hlen := congrArg String.length h
    rw [show toString (Int.negSucc m) = "-" ++ Nat.repr (m + 1) from rfl,
      String.length_append] at hlen
    have h1 : "-".length = 1 := rfl
    have h0 : "".length = 0 := rfl
    rw [h1, h0] at hlen
    omega

/-- The source item `json.dumps` output is never the empty string, so a cached value is
always truthy on the hit path. -/
theorem dumps_ne_empty (j : Json) : dumps j ≠ "" := by
  have h0 : "".length = 0 := rfl
  cases j with
  | null => decide
  | bool b => cases b <;> decide
  | num n => exact intToString_ne_empty n
  | str s =>
    intro h
    have hlen := congrArg String.length h
    rw [show dumps (Json.str s) = dqS ++ jsonEscape s ++ dqS from rfl,
      String.length_append, String.length_append, h0] at hlen
    have h1 : dqS.length = 1 := rfl
    rw [h1] at hlen
    omega
  | arr xs =>
    intro h
    have hlen := congrArg String.length h
    rw [show dumps (Json.arr xs) =
        "[" ++ strJoin ", " (dumpsList xs) ++ "]" from rfl,
      String.length_append, String.length_append, h0] at hlen
    have h1 : "[".length = 1 := rfl
    rw [h1] at hlen
    omega
  | obj fs =>
    intro h
    have hlen := congrArg String.length h
    rw [show dumps (Json.obj fs) =
        lbS ++ strJoin ", " (dumpsFields fs) ++ rbS from rfl,
      String.length_append, String.length_append, h0] at hlen
    have h1 : lbS.length = 1 := rfl
    rw [h1] at hlen
    omega

/-- Claim C5: Calling the memoized function twice with identical
arguments (with a serializable cache key, starting from a cache with no
entry for that key) invokes the wrapped function exactly once: the
first call is a miss that invokes it and stores `json.dumps` of the
result `r`; the second call is a hit that does not invoke it and
returns `json.loads(json.dumps(r))`. -/
theorem memoized_twice_invokes_once (funcName nameSpace : String)
    (expireTime : Nat) (f : List PyVal → List (String × PyVal) → Json)
    (args : List PyVal) (kwargs : List (String × PyVal)) (rk : String)
    (s0 : RedisCache.Store)
    (hk : RedisCache.redisKeyV1 funcName args kwargs = some rk)
    (hfresh : RedisCache.get_key (RedisCache.md5hexdigest rk)
      (some nameSpace) s0 = Option.none) :
    (RedisCache.applyCacheV1 funcName nameSpace expireTime f args kwargs
        s0).2.2 = 1
    ∧ (RedisCache.applyCacheV1 funcName nameSpace expireTime f args kwargs
        s0).1 = some (f args kwargs)
    ∧ (RedisCache.applyCacheV1 funcName nameSpace expireTime f args kwargs
        (RedisCache.applyCacheV1 funcName nameSpace expireTime f args kwargs
          s0).2.1).2.2 = 0
    ∧ (RedisCache.applyCacheV1 funcName nameSpace expireTime f args kwargs
        (RedisCache.applyCacheV1 funcName nameSpace expireTime f args kwargs
          s0).2.1).1 = loads (dumps (f args kwargs)) := by
  have hhit : RedisCache.get_key (RedisCache.md5hexdigest rk)
      (some nameSpace)
      (RedisCache.set_key (RedisCache.md5hexdigest rk)
        (dumps (f args kwargs)) (some nameSpace) s0 expireTime) =
      some (dumps (f args kwargs)) := by
    unfold RedisCache.get_key RedisCache.set_key
    exact lookup_storeSet_self _ _ _
  unfold RedisCache.applyCacheV1
  rw [hk]
  simp only [hfresh, hhit, dumps_ne_empty, ne_eq, not_false_iff,
    if_true]
  simp [dumps_ne_empty]

/-- Witness for C5: a concrete memoized function with receiver argument
`0`, argument `1` and an empty cache. -/
theorem memoized_twice_invokes_once_witness :
    (RedisCache.applyCacheV1 "f" "ns" 0 (fun _ _ => Json.num 7)
        [PyVal.int 0, PyVal.int 1] [] []).2.2 = 1
    ∧ (RedisCache.applyCacheV1 "f" "ns" 0 (fun _ _ => Json.num 7)
        [PyVal.int 0, PyVal.int 1] [] []).1 =
        some ((fun (_ : List PyVal) (_ : List (String × PyVal)) =>
          Json.num 7) [PyVal.int 0, PyVal.int 1] [])
    ∧ (RedisCache.applyCacheV1 "f" "ns" 0 (fun _ _ => Json.num 7)
        [PyVal.int 0, PyVal.int 1] []
        (RedisCache.applyCacheV1 "f" "ns" 0 (fun _ _ => Json.num 7)
          [PyVal.int 0, PyVal.int 1] [] []).2.1).2.2 = 0
    ∧ (RedisCache.applyCacheV1 "f" "ns" 0 (fun _ _ => Json.num 7)
        [PyVal.int 0, PyVal.int 1] []
        (RedisCache.applyCacheV1 "f" "ns" 0 (fun _ _ => Json.num 7)
          [PyVal.int 0, PyVal.int 1] [] []).2.1).1 =
        loads (dumps ((fun (_ : List PyVal)
          (_ : List (String × PyVal)) => Json.num 7)
          [PyVal.int 0, PyVal.int 1] [])) :=
  memoized_twice_invokes_once "f" "ns" 0 (fun _ _ => Json.num 7)
    [PyVal.int 0, PyVal.int 1] []
    ((RedisCache.redisKeyV1 "f" [PyVal.int 0, PyVal.int 1] []).getD "") []
    (by decide) rfl


/-- Dropping a disallowed-type argument from the v2 key is independent
of which disallowed value sat in that position. -/
theorem newArgsV2_skip (pre post : List PyVal) (a1 a2 : PyVal)
    (h1 : allowedTypeForCaching a1 = false)
    (h2 : allowedTypeForCaching a2 = false) :
    RedisCache.newArgsV2 (pre ++ a1 :: post) =
      RedisCache.newArgsV2 (pre ++ a2 :: post) := by
  induction pre with
  | nil =>
    rw [List.nil_append, List.nil_append, RedisCache.newArgsV2,
      RedisCache.newArgsV2, h1, h2]
    simp
  | cons p pre ih =>
    rw [List.cons_append, List.cons_append, RedisCache.newArgsV2,
      RedisCache.newArgsV2, ih]

/-- Claim C6: The v2 cache digest key depends only on the function's
name, the positional arguments from index 1 onward whose type is in
`allowed_types_for_caching`, and the keyword arguments whose value's
type is in that list: two invocations that differ solely in a
positional argument of disallowed type, solely in a keyword argument of
disallowed value type, or solely in the receiver argument at index 0,
produce the same digest key and hence resolve to the same cache
entry. -/
theorem digest_key_v2_ignores_disallowed_args (funcName : String)
    (recv recv2 a1 a2 : PyVal) (pre post args : List PyVal)
    (kwargs kpre kpost : List (String × PyVal)) (key : String)
    (v1 v2 : PyVal)
    (h1 : allowedTypeForCaching a1 = false)
    (h2 : allowedTypeForCaching a2 = false)
    (h3 : allowedTypeForCaching v1 = false)
    (h4 : allowedTypeForCaching v2 = false) :
    RedisCache.digestKeyV2 funcName (recv :: (pre ++ a1 :: post)) kwargs =
      RedisCache.digestKeyV2 funcName (recv :: (pre ++ a2 :: post)) kwargs
    ∧ RedisCache.digestKeyV2 funcName args (kpre ++ (key, v1) :: kpost) =
      RedisCache.digestKeyV2 funcName args (kpre ++ (key, v2) :: kpost)
    ∧ RedisCache.digestKeyV2 funcName (recv :: pre) kwargs =
      RedisCache.digestKeyV2 funcName (recv2 :: pre) kwargs := by
  have hstr : ∀ (r : PyVal) (rest : List PyVal),
      RedisCache.argsStrV2 (r :: rest) =
        (RedisCache.newArgsV2 rest).map
          (fun na => pyRepr (PyVal.pylist na)) := fun _ _ => rfl
  refine ⟨?_, ?_, ?_⟩
  · unfold RedisCache.digestKeyV2 RedisCache.redisKeyV2
    rw [hstr, hstr, newArgsV2_skip pre post a1 a2 h1 h2]
  · unfold RedisCache.digestKeyV2 RedisCache.redisKeyV2
      RedisCache.kwargsV2
    rw [List.filter_append, List.filter_append, List.filter_cons,
      List.filter_cons, h3, h4]
    simp
  · rfl

/-- Witness for C6: calls differing only in a non-serializable `obj`
argument (positional, keyword, or receiver) share a digest key. -/
theorem digest_key_v2_ignores_disallowed_args_witness :
    RedisCache.digestKeyV2 "f"
        (PyVal.int 0 :: ([] ++ PyVal.obj 1 :: [PyVal.int 2]))
        [("k", PyVal.str "v")] =
      RedisCache.digestKeyV2 "f"
        (PyVal.int 0 :: ([] ++ PyVal.obj 9 :: [PyVal.int 2]))
        [("k", PyVal.str "v")]
    ∧ RedisCache.digestKeyV2 "f" [PyVal.int 0]
        ([] ++ ("k", PyVal.obj 3) :: []) =
      RedisCache.digestKeyV2 "f" [PyVal.int 0]
        ([] ++ ("k", PyVal.none) :: [])
    ∧ RedisCache.digestKeyV2 "f" [PyVal.int 0] [("k", PyVal.str "v")] =
      RedisCache.digestKeyV2 "f" [PyVal.int 5] [("k", PyVal.str "v")] :=
  digest_key_v2_ignores_disallowed_args "f" (PyVal.int 0) (PyVal.int 5)
    (PyVal.obj 1) (PyVal.obj 9) [] [PyVal.int 2] [PyVal.int 0]
    [("k", PyVal.str "v")] [] [] "k" (PyVal.obj 3) PyVal.none
    rfl rfl rfl rfl

/-- The invariant holds in the initial state. -/
theorem poolInv_init (n : Nat) : PostgresStore.PoolInv (PostgresStore.poolInit n) := by
  refine ⟨by simp [PostgresStore.poolInit], by simp [PostgresStore.poolInit],
    ?_, ?_, ?_⟩ <;>
    intro i <;> simp [PostgresStore.poolInit]

/-- The invariant is preserved by every atomic step. -/
theorem poolInv_step {n : Nat} (s s' : PostgresStore.PoolState n)
    (hstep : PostgresStore.PoolStep n s s')
    (hinv : PostgresStore.PoolInv s) : PostgresStore.PoolInv s' := by
  obtain ⟨hc1, hc0, hdone, hcreating, hsem⟩ := hinv
  cases hstep with
  | startFail i hi hcfg =>
    refine ⟨hc1, hc0, ?_, ?_, ?_⟩
    · intro j v hj
      by_cases hji : j = i
      · subst hji
        simp [Function.update_apply] at hj
      · simp only [Function.update_apply, if_neg hji] at hj
        exact hdone j v hj
    · intro j hj
      by_cases hji : j = i
      · subst hji
        simp [Function.update_apply] at hj
      · simp only [Function.update_apply, if_neg hji] at hj
        exact hcreating j hj
    · intro j hj
      by_cases hji : j = i
      · subst hji
        simp [Function.update_apply] at hj
      · simp only [Function.update_apply, if_neg hji] at hj
        exact hsem j hj
  | startHit i v hi hcfg hp =>
    refine ⟨hc1, hc0, ?_, ?_, ?_⟩
    · intro j w hj
      by_cases hji : j = i
      · subst hji
        simp only [Function.update_apply, if_pos rfl] at hj
        cases hj
        exact hp
      · simp only [Function.update_apply, if_neg hji] at hj
        exact hdone j w hj
    · intro j hj
      by_cases hji : j = i
      · subst hji
        simp [Function.update_apply] at hj
      · simp only [Function.update_apply, if_neg hji] at hj
        exact hcreating j hj
    · intro j hj
      by_cases hji : j = i
      · subst hji
        simp [Function.update_apply] at hj
      · simp only [Function.update_apply, if_neg hji] at hj
        exact hsem j hj
  | startMiss i hi hcfg hp =>
    refine ⟨hc1, hc0, ?_, ?_, ?_⟩
    · intro j w hj
      by_cases hji : j = i
      · subst hji
        simp [Function.update_apply] at hj
      · simp only [Function.update_apply, if_neg hji] at hj
        exact hdone j w hj
    · intro j hj
      by_cases hji : j = i
      · subst hji
        simp [Function.update_apply] at hj
      · simp only [Function.update_apply, if_neg hji] at hj
        exact hcreating j hj
    · intro j hj
      by_cases hji : j = i
      · subst hji
        simp [Function.update_apply] at hj
      · simp only [Function.update_apply, if_neg hji] at hj
        exact hsem j hj
  | acquire i hi hfree =>
    refine ⟨hc1, hc0, ?_, ?_, ?_⟩
    · intro j w hj
      by_cases hji : j = i
      · subst hji
        simp [Function.update_apply] at hj
      · simp only [Function.update_apply, if_neg hji] at hj
        exact hdone j w hj
    · intro j hj
      by_cases hji : j = i
      · subst hji
        simp [Function.update_apply] at hj
      · simp only [Function.update_apply, if_neg hji] at hj
        exact hcreating j hj
    · intro j hj
      by_cases hji : j = i
      · subst hji
        rfl
      · simp only [Function.update_apply, if_neg hji] at hj
        have := hsem j hj
        rw [hfree] at this
        cases this
  | lockedHit i v hi hp =>
    refine ⟨hc1, hc0, ?_, ?_, ?_⟩
    · intro j w hj
      by_cases hji : j = i
      · subst hji
        simp only [Function.update_apply, if_pos rfl] at hj
        cases hj
        exact hp
      · simp only [Function.update_apply, if_neg hji] at hj
        exact hdone j w hj
    · intro j hj
      by_cases hji : j = i
      · subst hji
        simp [Function.update_apply] at hj
      · simp only [Function.update_apply, if_neg hji] at hj
        exact hcreating j hj
    · intro j hj
      by_cases hji : j = i
      · subst hji
        simp [Function.update_apply] at hj
      · simp only [Function.update_apply, if_neg hji] at hj
        have hj' := hsem j hj
        have hi' := hsem i (Or.inl hi)
        rw [hj'] at hi'
        cases hi'
        exact absurd rfl hji
  | lockedMiss i hi hp =>
    refine ⟨hc1, hc0, ?_, ?_, ?_⟩
    · intro j w hj
      by_cases hji : j = i
      · subst hji
        simp [Function.update_apply] at hj
      · simp only [Function.update_apply, if_neg hji] at hj
        exact hdone j w hj
    · intro j hj
      exact hp
    · intro j hj
      by_cases hji : j = i
      · rw [hji]
        exact hsem i (Or.inl hi)
      · simp only [Function.update_apply, if_neg hji] at hj
        exact hsem j hj
  | create i hi =>
    have hpnone : s.pool = Option.none := hcreating i hi
    have hzero : s.creations = 0 := hc0.mp hpnone
    refine ⟨by simp [hzero], by simp, ?_, ?_, ?_⟩
    · intro j w hj
      by_cases hji : j = i
      · subst hji
        simp only [Function.update_apply, if_pos rfl] at hj
        cases hj
        rfl
      · simp only [Function.update_apply, if_neg hji] at hj
        have := hdone j w hj
        rw [hpnone] at this
        cases this
    · intro j hj
      by_cases hji : j = i
      · subst hji
        simp [Function.update_apply] at hj
      · simp only [Function.update_apply, if_neg hji] at hj
        have hj' := hsem j (Or.inr hj)
        have hi' := hsem i (Or.inr hi)
        rw [hj'] at hi'
        cases hi'
        exact absurd rfl hji
    · intro j hj
      by_cases hji : j = i
      · subst hji
        simp [Function.update_apply] at hj
      · simp only [Function.update_apply, if_neg hji] at hj
        have hj' := hsem j hj
        have hi' := hsem i (Or.inr hi)
        rw [hj'] at hi'
        cases hi'
        exact absurd rfl hji

/-- The invariant holds in every reachable state. -/
theorem poolInv_reach (n : Nat) (s : PostgresStore.PoolState n)
    (h : PostgresStore.PoolReach n s) : PostgresStore.PoolInv s := by
  induction h with
  | refl => exact poolInv_init n
  | tail hsteps hstep ih => exact poolInv_step _ _ hstep ih

/-- Claim C1: With the configuration set by `connect`, for any number of
concurrent `get_pool` callers interleaved arbitrarily by the event
loop: at most one `create_pool` ever completes; all callers that have
returned hold the same pool instance; once a pool exists no step
creates another pool or changes the existing one; and when every caller
has returned (and there is at least one), `create_pool` completed
exactly once. -/
theorem get_pool_creates_exactly_once (n : Nat)
    (s : PostgresStore.PoolState n) (h : PostgresStore.PoolReach n s) :
    s.creations ≤ 1
    ∧ (∀ i j v w, s.tasks i = PostgresStore.TPC.done v →
        s.tasks j = PostgresStore.TPC.done w → v = w)
    ∧ (∀ s', PostgresStore.PoolStep n s s' → s.pool.isSome →
        s'.pool = s.pool ∧ s'.creations = s.creations)
    ∧ ((0 < n ∧ ∀ i, ∃ v, s.tasks i = PostgresStore.TPC.done v) →
        s.creations = 1) := by
  obtain ⟨hc1, hc0, hdone, hcreating, hsem⟩ := poolInv_reach n s h
  refine ⟨hc1, ?_, ?_, ?_⟩
  · intro i j v w hi hj
    have hv := hdone i v hi
    have hw := hdone j w hj
    rw [hv] at hw
    cases hw
    rfl
  · intro s' hstep hpool
    cases hstep with
    | startFail i hi hcfg => exact ⟨rfl, rfl⟩
    | startHit i v hi hcfg hp => exact ⟨rfl, rfl⟩
    | startMiss i hi hcfg hp => exact ⟨rfl, rfl⟩
    | acquire i hi hfree => exact ⟨rfl, rfl⟩
    | lockedHit i v hi hp => exact ⟨rfl, rfl⟩
    | lockedMiss i hi hp => exact ⟨rfl, rfl⟩
    | create i hi =>
      rw [hcreating i hi] at hpool
      cases hpool
  · rintro ⟨hn, hall⟩
    obtain ⟨v, hv⟩ := hall ⟨0, hn⟩
    have hp := hdone _ v hv
    have : ¬s.creations = 0 := fun hz => by
      rw [hc0.mpr hz] at hp
      cases hp
    omega

/-- Witness for C1: the initial one-caller state is reachable and the
claim's conjunction holds there. -/
theorem get_pool_creates_exactly_once_witness :
    (PostgresStore.poolInit 1).creations ≤ 1
    ∧ (∀ i j v w,
        (PostgresStore.poolInit 1).tasks i = PostgresStore.TPC.done v →
        (PostgresStore.poolInit 1).tasks j = PostgresStore.TPC.done w →
        v = w)
    ∧ (∀ s', PostgresStore.PoolStep 1 (PostgresStore.poolInit 1) s' →
        (PostgresStore.poolInit 1).pool.isSome →
        s'.pool = (PostgresStore.poolInit 1).pool
        ∧ s'.creations = (PostgresStore.poolInit 1).creations)
    ∧ ((0 < 1 ∧ ∀ i, ∃ v,
        (PostgresStore.poolInit 1).tasks i = PostgresStore.TPC.done v) →
        (PostgresStore.poolInit 1).creations = 1) :=
  get_pool_creates_exactly_once 1 (PostgresStore.poolInit 1)
    Relation.ReflTransGen.refl
